import Mathlib

/-!
Verification of the data-processing pipeline in `src/data/process_data.py`
(disaster-response ETL): `load_data` (inner join of the messages and
categories tables on `id`), `clean_data` (expansion of the packed
`categories` column into per-category integer columns, 2→1 normalization,
duplicate-row removal) and `save_data` (replace-mode persistence), plus the
`main` CLI entry point.

Tables are embedded shallowly: a `DataFrame` is a list of column names
together with a list of rows, each row a list of cells; a cell is either a
string or an integer.  Operations that raise in Python (missing column,
missing row 0, failed `astype(int)`, …) are embedded as `Option`-returning
functions, `none` standing for a propagated exception.
-/

set_option autoImplicit false

namespace DisasterResponse

/-- A table cell: the joined CSV data holds strings and integers. -/
inductive Cell where
  | str (s : String)
  | int (n : Int)
deriving DecidableEq, Repr

/-- A tabular in-memory structure: ordered column names and rows of cells.
Well-formed frames have every row of the same length as `cols`. -/
structure DataFrame where
  cols : List String
  rows : List (List Cell)
deriving DecidableEq, Repr

/-- Apply a fallible function to every element, failing if any application
fails (the embedding of a pandas element-wise operation that raises). -/
def mapOpt {α β : Type} (f : α → Option β) : List α → Option (List β)
  | [] => some []
  | x :: xs => (f x).bind fun y => (mapOpt f xs).map fun ys => y :: ys

/-- The string contents of a cell, if it is a string cell. -/
def cellStr? : Cell → Option String
  | .str s => some s
  | .int _ => none

/-- Column lookup `df[name]` (first matching column, as pandas indexing),
`none` embedding the `KeyError` on a missing column. -/
def getCol? (df : DataFrame) (name : String) : Option (List Cell) :=
  (df.cols.findIdx? (· = name)).map fun i =>
    df.rows.map fun r => r.getD i (Cell.int 0)

/-- Python `str.split(sep)` on the character list of a string: split on every
occurrence of `sep`, keeping empty pieces; the result is never empty
(`"".split(sep) == [""]`). -/
def pySplitChars (sep : Char) : List Char → List (List Char)
  | [] => [[]]
  | x :: xs =>
    if x = sep then [] :: pySplitChars sep xs
    else
      match pySplitChars sep xs with
      | [] => [[x]]
      | y :: ys => (x :: y) :: ys

/-- Python `s.split(sep)` for a one-character separator. -/
def pySplit (sep : Char) (s : String) : List String :=
  (pySplitChars sep s.toList).map fun l => String.mk l

/-- Python `int(str(c))` for a single character: its digit value, raising
(`none`) on a non-digit. -/
def charDigit? (c : Char) : Option Int :=
  if c.isDigit then some ((c.toNat : Int) - ('0'.toNat : Int)) else none

/-- `df["categories"]` read as strings: the packed categories column.
Fails if the column is missing or holds a non-string cell (on which the
later string accessors would raise). -/
def catStrings (df : DataFrame) : Option (List String) :=
  (df.cols.findIdx? (· = "categories")).bind fun i =>
    mapOpt (fun r => cellStr? (r.getD i (Cell.int 0))) df.rows

/-- `Series.str.split(";", expand=True)`: split every value on `";"` and pad
each row with missing cells (`none`) up to the widest row. -/
def splitExpand (vals : List String) : List (List (Option String)) :=
  let toks := vals.map fun s => pySplit ';' s
  let width := toks.foldl (fun a t => max a t.length) 0
  toks.map fun t => t.map some ++ List.replicate (width - t.length) none

/-- The expanded token table `categories` of `clean_data` (line 28). -/
def expandedTokens (df : DataFrame) : Option (List (List (Option String))) :=
  (catStrings df).map splitExpand

/-- Lines 31–32 of `clean_data`: take row 0 of the expanded table and derive
a column name from each token as `c.split("-")[0]`.  Fails when there is no
row 0, or when row 0 holds a missing cell (a float, on which `.split`
raises). -/
def categoryNames (df : DataFrame) : Option (List String) :=
  (expandedTokens df).bind fun exp =>
    exp.head?.bind fun row0 =>
      (mapOpt id row0).map fun row0s =>
        row0s.map fun c => (pySplit '-' c).headI

/-- Line 37 of `clean_data` on one cell: `.str[-1].astype(int)`.  Takes the
last character of the token and parses it as an integer; a missing cell, an
empty token or a non-numeric last character raises (`none`). -/
def parseCatCell : Option String → Option Int
  | none => none
  | some s => s.toList.getLast?.bind charDigit?

/-- The integer category table before the 2→1 normalization (line 37 applied
to every cell of the expanded table). -/
def parsedValues (df : DataFrame) : Option (List (List Int)) :=
  (expandedTokens df).bind fun exp =>
    mapOpt (fun r => mapOpt parseCatCell r) exp

/-- Line 40 of `clean_data`: `lambda x: 1 if x == 2 else x`. -/
def normalizeVal (x : Int) : Int :=
  if x = 2 then 1 else x

/-- The integer category table after normalization.  (`pd.to_numeric` on
line 43 is the identity on an integer column and is not modelled
separately.) -/
def normalizedValues (df : DataFrame) : Option (List (List Int)) :=
  (parsedValues df).map fun rs => rs.map fun r => r.map normalizeVal

/-- `df.drop(columns=[name])`: remove every column called `name`, and the
corresponding cell of each row. -/
def dropColumn (df : DataFrame) (name : String) : DataFrame :=
  { cols := df.cols.filter (· ≠ name),
    rows := df.rows.map fun r =>
      ((df.cols.zip r).filter (fun p => p.1 ≠ name)).map Prod.snd }

/-- `df.drop_duplicates()` with the default `keep="first"`: keep each row
whose value has not occurred before, preserving order.  `seen` accumulates
the values already kept. -/
def dropDupSeen {α : Type} [DecidableEq α] (seen : List α) : List α → List α
  | [] => []
  | x :: xs =>
    if x ∈ seen then dropDupSeen seen xs
    else x :: dropDupSeen (x :: seen) xs

/-- `df.drop_duplicates()` on a list of rows. -/
def dropDuplicates {α : Type} [DecidableEq α] (l : List α) : List α :=
  dropDupSeen [] l

/-- `clean_data` up to line 46: expand the packed column, name the new
columns from row 0, parse and normalize every value, drop the packed
`categories` column and concatenate the new integer columns on the right. -/
def cleanDataNoDedup (df : DataFrame) : Option DataFrame :=
  (categoryNames df).bind fun names =>
    (normalizedValues df).map fun norm =>
      let dropped := dropColumn df "categories"
      { cols := dropped.cols ++ names,
        rows := List.zipWith (fun r cats => r ++ cats.map Cell.int)
                  dropped.rows norm }

/-- `clean_data`: the expansion/normalization pipeline followed by
`drop_duplicates` (line 49). -/
def cleanData (df : DataFrame) : Option DataFrame :=
  (cleanDataNoDedup df).map fun d => { d with rows := dropDuplicates d.rows }

/-- `load_data` after the two `read_csv` calls, on already-parsed tables:
`pd.merge(messages, categories, on=["id"], how="inner")`.  Output columns
are the left columns followed by the right columns minus the key; output
rows pair each left row, in order, with every right row carrying the same
`id`.  A missing `id` column raises (`none`).  (The pandas suffixing of
overlapping non-key column names is outside the modelled domain; the
theorems below assume `id` is the only shared name.) -/
def loadData (messages categories : DataFrame) : Option DataFrame :=
  match messages.cols.findIdx? (· = "id"), categories.cols.findIdx? (· = "id") with
  | some mi, some ci =>
    some { cols := messages.cols ++ categories.cols.eraseIdx ci,
           rows := messages.rows.flatMap fun mr =>
             (categories.rows.filter
                 (fun cr => cr.getD ci (Cell.int 0) = mr.getD mi (Cell.int 0))).map
               fun cr => mr ++ cr.eraseIdx ci }
  | _, _ => none

/-- The relational store at one database path: a map from table name to the
table currently stored under that name. -/
def Store : Type := String → Option DataFrame

/-- `save_data`: `df.to_sql("DisasterResponse", engine, index=False,
if_exists="replace")` — the table stored under the fixed name
`"DisasterResponse"` becomes `df`, dropping any prior table of that name;
every other table is untouched. -/
def saveData (df : DataFrame) (store : Store) : Store :=
  fun name => if name = "DisasterResponse" then some df else store name

/-- One line printed to standard output by `main`. -/
inductive Msg where
  | usage
  | loading (messagesFilepath categoriesFilepath : String)
  | cleaning
  | saving (databaseFilepath : String)
  | done
deriving DecidableEq, Repr

/-- Observable outcome of one run of `main`: the lines printed to standard
output, the process exit code, and the resulting state of the store. -/
structure MainResult where
  stdout : List Msg
  exitCode : Nat
  store : Store

/-- `main`: with `len(sys.argv) == 4` run load → clean → save (an uncaught
exception terminating the process with exit code 1), otherwise print the
usage message and return normally (exit code 0).  `msgs` and `cats` stand
for the parsed contents of the two CSV files. -/
def mainRun (argv : List String) (msgs cats : DataFrame) (store : Store) :
    MainResult :=
  if argv.length = 4 then
    let messagesFilepath := argv.getD 1 ""
    let categoriesFilepath := argv.getD 2 ""
    let databaseFilepath := argv.getD 3 ""
    match loadData msgs cats with
    | none =>
      { stdout := [.loading messagesFilepath categoriesFilepath],
        exitCode := 1, store := store }
    | some df =>
      match cleanData df with
      | none =>
        { stdout := [.loading messagesFilepath categoriesFilepath, .cleaning],
          exitCode := 1, store := store }
      | some out =>
        { stdout := [.loading messagesFilepath categoriesFilepath, .cleaning,
                     .saving databaseFilepath, .done],
          exitCode := 0, store := saveData out store }
  else
    { stdout := [.usage], exitCode := 0, store := store }

/-- The characters of `s` after its last `'-'` (the whole of `s` when it has
no `'-'`); used to state the spec's description of the numeric suffix. -/
def afterLastDash (s : String) : String :=
  String.mk ((s.toList.reverse.takeWhile (· ≠ '-')).reverse)

/-! Concrete tables used to instantiate the theorems. -/

/-- A one-row joined table whose categories value is the spec's example
`"related-1;request-0;offer-2"`. -/
def dfEx : DataFrame :=
  { cols := ["id", "message", "categories"],
    rows := [[Cell.int 1, Cell.str "water", Cell.str "related-1;request-0;offer-2"]] }

/-- The expected cleaning of `dfEx`: `related=1, request=0, offer=1`. -/
def cleanedEx : DataFrame :=
  { cols := ["id", "message", "related", "request", "offer"],
    rows := [[Cell.int 1, Cell.str "water", Cell.int 1, Cell.int 0, Cell.int 1]] }

/-- A joined table holding two fully identical rows. -/
def dfDup : DataFrame :=
  { cols := ["id", "categories"],
    rows := [[Cell.int 1, Cell.str "related-1;request-0"],
             [Cell.int 1, Cell.str "related-1;request-0"]] }

/-- The expected cleaning of `dfDup`: exactly one row remains. -/
def cleanedDup : DataFrame :=
  { cols := ["id", "related", "request"],
    rows := [[Cell.int 1, Cell.int 1, Cell.int 0]] }

/-- The pre-deduplication cleaning of `dfDup` (the pipeline state after the
column expansion, before `drop_duplicates`). -/
def preDup : DataFrame :=
  { cols := ["id", "related", "request"],
    rows := [[Cell.int 1, Cell.int 1, Cell.int 0],
             [Cell.int 1, Cell.int 1, Cell.int 0]] }

/-- The expanded token table of `dfEx`. -/
def expEx : List (List (Option String)) :=
  [[some "related-1", some "request-0", some "offer-2"]]

/-- The parsed (pre-normalization) integer table of `dfEx`. -/
def parsedEx : List (List Int) :=
  [[1, 0, 2]]

/-- A small messages table with ids 1 and 2. -/
def msgsEx : DataFrame :=
  { cols := ["id", "message"],
    rows := [[Cell.int 1, Cell.str "flood"], [Cell.int 2, Cell.str "storm"]] }

/-- A small categories table with id 1 only. -/
def catsEx : DataFrame :=
  { cols := ["id", "categories"],
    rows := [[Cell.int 1, Cell.str "related-1;request-0"]] }

/-- The inner join of `msgsEx` and `catsEx`: only id 1 is shared. -/
def joinedEx : DataFrame :=
  { cols := ["id", "message", "categories"],
    rows := [[Cell.int 1, Cell.str "flood", Cell.str "related-1;request-0"]] }

/-- A table without a `categories` column (already-cleaned shape). -/
def dfNoCat : DataFrame :=
  { cols := ["id", "message", "related"],
    rows := [[Cell.int 1, Cell.str "flood", Cell.int 1]] }

/-- A table with a `categories` column but no rows. -/
def dfEmpty : DataFrame :=
  { cols := ["id", "categories"], rows := [] }

/-- An empty store: no table exists under any name. -/
def emptyStore : Store := fun _ => none

end DisasterResponse

/-! ### Helper lemmas -/

namespace DisasterResponse

theorem mapOpt_some_cons {α β : Type} {f : α → Option β} {x : α} {xs : List α}
    {l' : List β} (h : mapOpt f (x :: xs) = some l') :
    ∃ y ys, f x = some y ∧ mapOpt f xs = some ys ∧ l' = y :: ys := by
  simp only [mapOpt] at h
  cases h1 : f x <;> rw [h1] at h
  · simp at h
  · cases h2 : mapOpt f xs <;> rw [h2] at h
    · simp at h
    · simp only [Option.map_some', Option.some_bind, Option.some.injEq] at h
      exact ⟨_, _, rfl, rfl, h.symm⟩

theorem mapOpt_length {α β : Type} {f : α → Option β} :
    ∀ {l : List α} {l' : List β}, mapOpt f l = some l' → l'.length = l.length
  | [], l', h => by
    simp only [mapOpt, Option.some.injEq] at h
    simp [← h]
  | x :: xs, l', h => by
    obtain ⟨y, ys, _, h2, rfl⟩ := mapOpt_some_cons h
    simp [mapOpt_length h2]

theorem mapOpt_getElem? {α β : Type} {f : α → Option β} :
    ∀ {l : List α} {l' : List β}, mapOpt f l = some l' →
      ∀ (i : Nat) (a : α), l[i]? = some a → ∃ b, f a = some b ∧ l'[i]? = some b
  | [], l', _, i, a, ha => by simp at ha
  | x :: xs, l', h, i, a, ha => by
    obtain ⟨y, ys, h1, h2, rfl⟩ := mapOpt_some_cons h
    cases i with
    | zero =>
      simp only [List.getElem?_cons_zero, Option.some.injEq] at ha
      subst ha
      exact ⟨y, h1, by simp⟩
    | succ n =>
      simp only [List.getElem?_cons_succ] at ha
      obtain ⟨b, hb, hb'⟩ := mapOpt_getElem? h2 n a ha
      exact ⟨b, hb, by simpa using hb'⟩

theorem mapOpt_mem {α β : Type} {f : α → Option β} :
    ∀ {l : List α} {l' : List β}, mapOpt f l = some l' →
      ∀ a ∈ l, ∃ b, f a = some b
  | [], l', _, a, ha => by simp at ha
  | x :: xs, l', h, a, ha => by
    obtain ⟨y, ys, h1, h2, rfl⟩ := mapOpt_some_cons h
    rcases List.mem_cons.mp ha with rfl | hmem
    · exact ⟨y, h1⟩
    · exact mapOpt_mem h2 a hmem

theorem mapOpt_id_map_some {α : Type} :
    ∀ (l : List α), mapOpt id (l.map some) = some l
  | [] => rfl
  | x :: xs => by simp [mapOpt, mapOpt_id_map_some xs]

theorem dropDupSeen_sublist {α : Type} [DecidableEq α] :
    ∀ (seen l : List α), (dropDupSeen seen l).Sublist l
  | _, [] => List.Sublist.refl _
  | seen, x :: xs => by
    simp only [dropDupSeen]
    split
    · exact (dropDupSeen_sublist seen xs).cons x
    · exact (dropDupSeen_sublist (x :: seen) xs).cons₂ x

theorem mem_dropDupSeen {α : Type} [DecidableEq α] :
    ∀ (seen l : List α) (a : α),
      a ∈ dropDupSeen seen l ↔ a ∈ l ∧ a ∉ seen
  | seen, [], a => by simp [dropDupSeen]
  | seen, x :: xs, a => by
    simp only [dropDupSeen]
    by_cases hx : x ∈ seen
    · rw [if_pos hx, mem_dropDupSeen seen xs a]
      constructor
      · rintro ⟨h1, h2⟩
        exact ⟨List.mem_cons_of_mem x h1, h2⟩
      · rintro ⟨h1, h2⟩
        rcases List.mem_cons.mp h1 with rfl | h1
        · exact absurd hx h2
        · exact ⟨h1, h2⟩
    · rw [if_neg hx]
      by_cases hax : a = x
      · subst hax
        simp [hx]
      · simp only [List.mem_cons, hax, false_or]
        rw [mem_dropDupSeen (x :: seen) xs a]
        simp [hax]

theorem nodup_dropDupSeen {α : Type} [DecidableEq α] :
    ∀ (seen l : List α), (dropDupSeen seen l).Nodup
  | seen, [] => List.nodup_nil
  | seen, x :: xs => by
    simp only [dropDupSeen]
    by_cases hx : x ∈ seen
    · rw [if_pos hx]
      exact nodup_dropDupSeen seen xs
    · rw [if_neg hx]
      refine List.nodup_cons.mpr ⟨fun hmem => ?_, nodup_dropDupSeen (x :: seen) xs⟩
      exact ((mem_dropDupSeen (x :: seen) xs x).mp hmem).2 (List.mem_cons_self x seen)

theorem dropDupSeen_congr {α : Type} [DecidableEq α] :
    ∀ (s₁ s₂ l : List α), (∀ x, x ∈ s₁ ↔ x ∈ s₂) →
      dropDupSeen s₁ l = dropDupSeen s₂ l
  | s₁, s₂, [], _ => rfl
  | s₁, s₂, x :: xs, h => by
    simp only [dropDupSeen]
    by_cases hx : x ∈ s₁
    · rw [if_pos hx, if_pos ((h x).mp hx)]
      exact dropDupSeen_congr s₁ s₂ xs h
    · rw [if_neg hx, if_neg (fun hc => hx ((h x).mpr hc))]
      refine congrArg (x :: ·) (dropDupSeen_congr (x :: s₁) (x :: s₂) xs fun y => ?_)
      simp only [List.mem_cons]
      exact or_congr Iff.rfl (h y)

theorem dropDupSeen_nil {α : Type} [DecidableEq α] (seen : List α) :
    dropDupSeen seen ([] : List α) = [] := rfl

theorem dropDupSeen_cons {α : Type} [DecidableEq α] (seen : List α) (x : α)
    (xs : List α) :
    dropDupSeen seen (x :: xs) =
      if x ∈ seen then dropDupSeen seen xs
      else x :: dropDupSeen (x :: seen) xs := rfl

theorem dropDupSeen_append {α : Type} [DecidableEq α] :
    ∀ (seen l₁ l₂ : List α),
      dropDupSeen seen (l₁ ++ l₂) =
        dropDupSeen seen l₁ ++ dropDupSeen (l₁ ++ seen) l₂
  | seen, [], l₂ => by simp [dropDupSeen_nil]
  | seen, x :: xs, l₂ => by
    rw [List.cons_append, dropDupSeen_cons, dropDupSeen_cons]
    by_cases hx : x ∈ seen
    · rw [if_pos hx, if_pos hx, dropDupSeen_append seen xs l₂]
      congr 1
      refine dropDupSeen_congr _ _ l₂ fun y => ?_
      simp only [List.mem_append, List.mem_cons]
      constructor
      · rintro (h | h)
        · exact Or.inl (Or.inr h)
        · exact Or.inr h
      · rintro ((rfl | h) | h)
        · exact Or.inr hx
        · exact Or.inl h
        · exact Or.inr h
    · rw [if_neg hx, if_neg hx, dropDupSeen_append (x :: seen) xs l₂,
        List.cons_append]
      congr 1
      congr 1
      refine dropDupSeen_congr _ _ l₂ fun y => ?_
      simp only [List.mem_append, List.mem_cons]
      tauto

theorem dropDuplicates_take_prefix {α : Type} [DecidableEq α] (l : List α) (n : Nat) :
    ∃ t, dropDuplicates l = dropDuplicates (l.take n) ++ t := by
  refine ⟨dropDupSeen (l.take n ++ []) (l.drop n), ?_⟩
  calc dropDuplicates l = dropDupSeen [] (l.take n ++ l.drop n) := by
        rw [List.take_append_drop]; rfl
    _ = dropDupSeen [] (l.take n) ++ dropDupSeen (l.take n ++ []) (l.drop n) :=
        dropDupSeen_append [] (l.take n) (l.drop n)

theorem cleanDataNoDedup_some {df pre : DataFrame}
    (h : cleanDataNoDedup df = some pre) :
    ∃ names norm, categoryNames df = some names ∧
      normalizedValues df = some norm ∧
      pre = { cols := (dropColumn df "categories").cols ++ names,
              rows := List.zipWith (fun r cats => r ++ cats.map Cell.int)
                        (dropColumn df "categories").rows norm } := by
  unfold cleanDataNoDedup at h
  rw [Option.bind_eq_some] at h
  obtain ⟨names, h1, h⟩ := h
  rw [Option.map_eq_some'] at h
  obtain ⟨norm, h2, h⟩ := h
  exact ⟨names, norm, h1, h2, h.symm⟩

theorem cleanData_some {df out : DataFrame} (h : cleanData df = some out) :
    ∃ pre, cleanDataNoDedup df = some pre ∧
      out = { cols := pre.cols, rows := dropDuplicates pre.rows } := by
  unfold cleanData at h
  rw [Option.map_eq_some'] at h
  obtain ⟨pre, h1, h⟩ := h
  exact ⟨pre, h1, h.symm⟩

theorem categoryNames_some {df : DataFrame} {names : List String}
    (h : categoryNames df = some names) :
    ∃ exp row0 row0s, expandedTokens df = some exp ∧
      exp.head? = some row0 ∧ mapOpt id row0 = some row0s ∧
      names = row0s.map fun c => (pySplit '-' c).headI := by
  unfold categoryNames at h
  rw [Option.bind_eq_some] at h
  obtain ⟨exp, h1, h⟩ := h
  rw [Option.bind_eq_some] at h
  obtain ⟨row0, h2, h⟩ := h
  rw [Option.map_eq_some'] at h
  obtain ⟨row0s, h3, h⟩ := h
  exact ⟨exp, row0, row0s, h1, h2, h3, h.symm⟩

theorem catStrings_some {df : DataFrame} {strs : List String}
    (h : catStrings df = some strs) :
    ∃ ci, df.cols.findIdx? (· = "categories") = some ci ∧
      mapOpt (fun r => cellStr? (r.getD ci (Cell.int 0))) df.rows = some strs := by
  unfold catStrings at h
  rw [Option.bind_eq_some] at h
  exact h

theorem expandedTokens_some {df : DataFrame} {exp : List (List (Option String))}
    (h : expandedTokens df = some exp) :
    ∃ strs, catStrings df = some strs ∧ exp = splitExpand strs := by
  unfold expandedTokens at h
  rw [Option.map_eq_some'] at h
  obtain ⟨strs, h1, h⟩ := h
  exact ⟨strs, h1, h.symm⟩

theorem parsedValues_some {df : DataFrame} {parsed : List (List Int)}
    (h : parsedValues df = some parsed) :
    ∃ exp, expandedTokens df = some exp ∧
      mapOpt (fun r => mapOpt parseCatCell r) exp = some parsed := by
  unfold parsedValues at h
  rw [Option.bind_eq_some] at h
  exact h

theorem normalizedValues_some {df : DataFrame} {norm : List (List Int)}
    (h : normalizedValues df = some norm) :
    ∃ parsed, parsedValues df = some parsed ∧
      norm = parsed.map fun r => r.map normalizeVal := by
  unfold normalizedValues at h
  rw [Option.map_eq_some'] at h
  obtain ⟨parsed, h1, h⟩ := h
  exact ⟨parsed, h1, h.symm⟩

theorem zipWith_getElem?_some {α β γ : Type} {f : α → β → γ} {as : List α}
    {bs : List β} {i : Nat} {c : γ}
    (h : (List.zipWith f as bs)[i]? = some c) :
    ∃ a b, as[i]? = some a ∧ bs[i]? = some b ∧ c = f a b := by
  rw [List.getElem?_zipWith] at h
  cases ha : as[i]? <;> rw [ha] at h
  · exact absurd h (Option.noConfusion ·)
  · cases hb : bs[i]? <;> rw [hb] at h
    · exact absurd h (Option.noConfusion ·)
    · simp only [Option.some.injEq] at h
      exact ⟨_, _, rfl, rfl, h.symm⟩

theorem zip_filter_proj_length (name : String) :
    ∀ (cols : List String) (row : List Cell), row.length = cols.length →
      (((cols.zip row).filter fun p => p.1 ≠ name).map Prod.snd).length
        = (cols.filter (· ≠ name)).length
  | [], row, h => by
    cases row with
    | nil => rfl
    | cons x xs => simp at h
  | c :: cs, row, h => by
    cases row with
    | nil => simp at h
    | cons x xs =>
      have h' : xs.length = cs.length := by
        simp only [List.length_cons] at h
        omega
      have IH := zip_filter_proj_length name cs xs h'
      by_cases hc : c = name
      · simp [List.zip_cons_cons, List.filter_cons, hc]
        simpa using IH
      · simp [List.zip_cons_cons, List.filter_cons, hc]
        simpa using IH

theorem mapOpt_id_pad {α : Type} {l : List α} {k : Nat} {l' : List α}
    (h : mapOpt id (l.map some ++ List.replicate k none) = some l') :
    k = 0 ∧ l' = l := by
  have hk : k = 0 := by
    by_contra hk
    obtain ⟨b, hb⟩ := mapOpt_mem h none (by
      rw [List.mem_append]
      exact Or.inr (List.mem_replicate.mpr ⟨hk, rfl⟩))
    exact Option.noConfusion hb
  subst hk
  rw [List.replicate_zero, List.append_nil, mapOpt_id_map_some] at h
  injection h with h
  exact ⟨rfl, h.symm⟩

theorem splitExpand_head? {vals : List String} {row0t : List (Option String)}
    (h : (splitExpand vals).head? = some row0t) :
    ∃ s0 k, vals.head? = some s0
      ∧ row0t = (pySplit ';' s0).map some ++ List.replicate k none := by
  unfold splitExpand at h
  simp only [List.head?_map] at h
  cases hv : vals.head? <;> rw [hv] at h
  · exact absurd h (Option.noConfusion ·)
  · rename_i s0
    simp only [Option.map_some', Option.some.injEq] at h
    exact ⟨s0, _, rfl, h.symm⟩

theorem zip_filter_proj_getD (name cname : String) (hne : cname ≠ name) :
    ∀ (cols : List String) (row : List Cell) (i j : Nat),
      row.length = cols.length →
      cols.findIdx? (· = cname) = some i →
      (cols.filter (· ≠ name)).findIdx? (· = cname) = some j →
      (((cols.zip row).filter fun p => p.1 ≠ name).map Prod.snd).getD j
          (Cell.int 0)
        = row.getD i (Cell.int 0)
  | [], row, i, j, h, hi, hj => by simp at hi
  | c :: cs, row, i, j, h, hi, hj => by
    cases row with
    | nil => simp at h
    | cons x xs =>
      have h' : xs.length = cs.length := by
        simp only [List.length_cons] at h
        omega
      rw [List.zip_cons_cons]
      by_cases hcc : c = cname
      · rw [List.findIdx?_cons, if_pos (by simp [hcc])] at hi
        injection hi with hi
        subst hi
        have hcn : ¬(c = name) := fun hcn => hne (hcc ▸ hcn)
        rw [List.filter_cons, if_pos (by simpa using hcn),
          List.findIdx?_cons, if_pos (by simp [hcc])] at hj
        injection hj with hj
        subst hj
        rw [List.filter_cons, if_pos (by simpa using hcn)]
        rfl
      · rw [List.findIdx?_cons, if_neg (by simp [hcc]), List.findIdx?_succ,
          Option.map_eq_some'] at hi
        obtain ⟨i', hi', rfl⟩ := hi
        by_cases hcn : c = name
        · rw [List.filter_cons, if_neg (by simpa using hcn)] at hj
          rw [List.filter_cons, if_neg (by simpa using hcn),
            List.getD_cons_succ]
          exact zip_filter_proj_getD name cname hne cs xs i' j h' hi' hj
        · rw [List.filter_cons, if_pos (by simpa using hcn),
            List.findIdx?_cons, if_neg (by simp [hcc]), List.findIdx?_succ,
            Option.map_eq_some'] at hj
          obtain ⟨j', hj', rfl⟩ := hj
          rw [List.filter_cons, if_pos (by simpa using hcn), List.map_cons,
            List.getD_cons_succ, List.getD_cons_succ]
          exact zip_filter_proj_getD name cname hne cs xs i' j' h' hi' hj'

theorem eraseIdx_findIdx_eq_filter (a : String) :
    ∀ (l : List String) (i : Nat),
      l.findIdx? (· = a) = some i → l.count a = 1 →
      l.eraseIdx i = l.filter (· ≠ a)
  | [], i, hi, _ => by simp at hi
  | x :: xs, i, hi, hc => by
    by_cases hx : x = a
    · rw [List.findIdx?_cons, if_pos (by simp [hx])] at hi
      injection hi with hi
      subst hi
      have hzero : xs.count a = 0 := by
        rw [List.count_cons] at hc
        simpa [hx] using hc
      have hnotin : a ∉ xs := List.count_eq_zero.mp hzero
      rw [List.eraseIdx_cons_zero, List.filter_cons, if_neg (by simp [hx])]
      refine (List.filter_eq_self.mpr fun b hb => ?_).symm
      simp only [ne_eq, decide_eq_true_eq]
      exact fun he => hnotin (he ▸ hb)
    · rw [List.findIdx?_cons, if_neg (by simp [hx]), List.findIdx?_succ,
        Option.map_eq_some'] at hi
      obtain ⟨i', hi', rfl⟩ := hi
      have hc' : xs.count a = 1 := by
        rw [List.count_cons] at hc
        simpa [hx] using hc
      rw [List.eraseIdx_cons_succ, List.filter_cons, if_pos (by simp [hx]),
        eraseIdx_findIdx_eq_filter a xs i' hi' hc']

theorem length_filter_key_nodup {γ β : Type} [DecidableEq β] (k : γ → β) :
    ∀ (pool : List γ) (v : β), (pool.map k).Nodup →
      (pool.filter fun b => k b = v).length
        = if v ∈ pool.map k then 1 else 0
  | [], v, _ => by simp
  | b :: pool, v, hnd => by
    rw [List.map_cons, List.nodup_cons] at hnd
    obtain ⟨hnotin, hnd'⟩ := hnd
    rw [List.filter_cons]
    by_cases hb : k b = v
    · rw [if_pos (by simp [hb])]
      have hrest : (pool.filter fun c => k c = v).length = 0 := by
        rw [List.length_eq_zero, List.filter_eq_nil_iff]
        intro c hc
        simp only [decide_eq_true_eq]
        intro he
        exact hnotin (hb ▸ he ▸ List.mem_map_of_mem k hc)
      rw [List.length_cons, hrest]
      simp [List.mem_cons, hb]
    · rw [if_neg (by simp [hb])]
      have hvb : ¬v = k b := fun he => hb he.symm
      rw [length_filter_key_nodup k pool v hnd']
      simp [List.mem_cons, hvb]

theorem length_flatMap_filter {α γ δ β : Type} [DecidableEq β]
    (k₁ : α → β) (k₂ : γ → β) (g : α → γ → δ) :
    ∀ (ms : List α) (pool : List γ), (pool.map k₂).Nodup →
      (ms.flatMap fun a => (pool.filter fun b => k₂ b = k₁ a).map (g a)).length
        = ((ms.map k₁).filter fun v => v ∈ pool.map k₂).length
  | [], pool, _ => rfl
  | a :: ms, pool, hnd => by
    rw [List.flatMap_cons, List.length_append, List.length_map,
      length_filter_key_nodup k₂ pool (k₁ a) hnd,
      length_flatMap_filter k₁ k₂ g ms pool hnd,
      List.map_cons, List.filter_cons]
    by_cases hmem : k₁ a ∈ pool.map k₂
    · rw [if_pos hmem, if_pos (by simp [hmem]), List.length_cons]
      omega
    · rw [if_neg hmem, if_neg (by simp [hmem])]
      omega

/-! ### Claim theorems -/

/-- C9: for every input table that lacks a `categories` column, `clean_data`
fails with a propagated error (embedded as `none`) rather than silently
producing a table. -/
theorem clean_data_requires_categories_column
    (df : DataFrame) (h : "categories" ∉ df.cols) :
    cleanData df = none := by
  have hfi : df.cols.findIdx? (· = "categories") = none := by
    rw [List.findIdx?_eq_none_iff]
    intro x hx
    simp only [decide_eq_false_iff_not]
    exact fun he => h (he ▸ hx)
  have hcs : catStrings df = none := by
    unfold catStrings
    rw [hfi]
    rfl
  have het : expandedTokens df = none := by
    unfold expandedTokens
    rw [hcs]
    rfl
  have hcn : categoryNames df = none := by
    unfold categoryNames
    rw [het]
    rfl
  have hnd : cleanDataNoDedup df = none := by
    unfold cleanDataNoDedup
    rw [hcn]
    rfl
  unfold cleanData
  rw [hnd]
  rfl

theorem clean_data_requires_categories_column_witness :
    "categories" ∉ dfNoCat.cols ∧ cleanData dfNoCat = none :=
  ⟨by decide, clean_data_requires_categories_column dfNoCat (by decide)⟩

/-- C10: for every input table that has a `categories` column but zero rows,
`clean_data` fails (row 0 is absent, so the schema derivation raises,
embedded as `none`) instead of returning an empty cleaned table. -/
theorem clean_data_fails_on_zero_rows
    (df : DataFrame) (hc : "categories" ∈ df.cols) (hr : df.rows = []) :
    cleanData df = none := by
  obtain ⟨i, hi⟩ : ∃ i, df.cols.findIdx? (· = "categories") = some i := by
    rw [← Option.isSome_iff_exists, List.findIdx?_isSome, List.any_eq_true]
    exact ⟨_, hc, by simp⟩
  have hcs : catStrings df = some [] := by
    unfold catStrings
    rw [hi, hr]
    rfl
  have het : expandedTokens df = some [] := by
    unfold expandedTokens
    rw [hcs]
    rfl
  have hcn : categoryNames df = none := by
    unfold categoryNames
    rw [het]
    rfl
  have hnd : cleanDataNoDedup df = none := by
    unfold cleanDataNoDedup
    rw [hcn]
    rfl
  unfold cleanData
  rw [hnd]
  rfl

theorem clean_data_fails_on_zero_rows_witness :
    "categories" ∈ dfEmpty.cols ∧ dfEmpty.rows = [] ∧ cleanData dfEmpty = none :=
  ⟨by decide, rfl, clean_data_fails_on_zero_rows dfEmpty (by decide) rfl⟩

/-- C7: `save_data` persists under the fixed table name with replace
semantics: a prior table of that name is dropped and recreated, writing
twice leaves exactly the second table, and other tables are untouched. -/
theorem save_data_replace_semantics
    (df₁ df₂ : DataFrame) (store : Store) :
    saveData df₁ store "DisasterResponse" = some df₁
    ∧ saveData df₂ (saveData df₁ store) "DisasterResponse" = some df₂
    ∧ (∀ name, name ≠ "DisasterResponse" →
        saveData df₂ (saveData df₁ store) name = store name)
    ∧ ∀ s₁ s₂ : Store,
        saveData df₂ s₁ "DisasterResponse" = saveData df₂ s₂ "DisasterResponse" := by
  refine ⟨rfl, rfl, fun name h => ?_, fun s₁ s₂ => rfl⟩
  unfold saveData
  rw [if_neg h, if_neg h]

theorem save_data_replace_semantics_witness :
    saveData cleanedDup (saveData cleanedEx emptyStore) "DisasterResponse" = some cleanedDup
    ∧ saveData cleanedDup (saveData cleanedEx emptyStore) "other" = emptyStore "other" := by
  obtain ⟨-, h2, h3, -⟩ := save_data_replace_semantics cleanedEx cleanedDup emptyStore
  exact ⟨h2, h3 "other" (by decide)⟩

/-- C8: for every invocation whose positional argument count is not exactly
3, `main` prints the usage message to standard output and returns without
performing any load, clean or save work, with exit code 0. -/
theorem main_prints_usage_on_bad_argc
    (prog : String) (args : List String) (msgs cats : DataFrame) (store : Store)
    (h : args.length ≠ 3) :
    mainRun (prog :: args) msgs cats store =
      { stdout := [Msg.usage], exitCode := 0, store := store } := by
  unfold mainRun
  rw [if_neg (by simp only [List.length_cons]; omega)]

theorem main_prints_usage_on_bad_argc_witness :
    ([] : List String).length ≠ 3
    ∧ mainRun ["process_data.py"] msgsEx catsEx emptyStore =
        { stdout := [Msg.usage], exitCode := 0, store := emptyStore } :=
  ⟨by decide,
   main_prints_usage_on_bad_argc "process_data.py" [] msgsEx catsEx emptyStore
     (by decide)⟩

/-- C5: `clean_data` removes exact full-row duplicates from the expanded
table: the surviving rows are a subsequence of the pre-deduplication rows
(order preserved), no two surviving rows are equal in all columns, every
pre-deduplication row value still occurs, first occurrences are what
survive (the output extends the deduplication of every prefix), and two
fully identical rows yield exactly one cleaned row. -/
theorem clean_data_drops_exact_duplicates
    (df pre out : DataFrame)
    (hpre : cleanDataNoDedup df = some pre) (hout : cleanData df = some out) :
    out.rows.Sublist pre.rows
    ∧ out.rows.Nodup
    ∧ (∀ x, x ∈ out.rows ↔ x ∈ pre.rows)
    ∧ (∀ n, ∃ t, out.rows = dropDuplicates (pre.rows.take n) ++ t)
    ∧ cleanData dfDup = some cleanedDup := by
  obtain ⟨pre', hpre', hout'⟩ := cleanData_some hout
  rw [hpre] at hpre'
  injection hpre' with hpre'
  subst hpre'
  subst hout'
  refine ⟨dropDupSeen_sublist [] pre.rows, nodup_dropDupSeen [] pre.rows,
    fun x => ?_, fun n => dropDuplicates_take_prefix pre.rows n, rfl⟩
  rw [show dropDuplicates pre.rows = dropDupSeen [] pre.rows from rfl,
    mem_dropDupSeen]
  simp

theorem clean_data_drops_exact_duplicates_witness :
    cleanDataNoDedup dfDup = some preDup
    ∧ cleanData dfDup = some cleanedDup
    ∧ cleanedDup.rows.Sublist preDup.rows
    ∧ cleanedDup.rows.Nodup := by
  obtain ⟨h1, h2, -, -, -⟩ :=
    clean_data_drops_exact_duplicates dfDup preDup cleanedDup rfl rfl
  exact ⟨rfl, rfl, h1, h2⟩

/-- C1: every cleaned category cell holds the parsed value with 2 remapped
to 1 and every other value passed through unchanged; in particular cleaning
a row with categories value `"related-1;request-0;offer-2"` yields
`related=1, request=0, offer=1`. -/
theorem clean_data_normalizes_two_to_one
    (df pre : DataFrame) (parsed : List (List Int))
    (hwf : ∀ r ∈ df.rows, r.length = df.cols.length)
    (hpre : cleanDataNoDedup df = some pre)
    (hparsed : parsedValues df = some parsed)
    (i j : Nat) (row : List Cell) (vals : List Int) (v : Int)
    (hrow : pre.rows[i]? = some row) (hvals : parsed[i]? = some vals)
    (hv : vals[j]? = some v) :
    row[(df.cols.filter (· ≠ "categories")).length + j]? =
      some (Cell.int (if v = 2 then 1 else v))
    ∧ cleanData dfEx = some cleanedEx := by
  refine ⟨?_, rfl⟩
  obtain ⟨names, norm, hnames, hnorm, hpre'⟩ := cleanDataNoDedup_some hpre
  subst hpre'
  obtain ⟨parsed', hparsed', hnorm'⟩ := normalizedValues_some hnorm
  rw [hparsed] at hparsed'
  injection hparsed' with hparsed'
  subst hparsed'
  subst hnorm'
  obtain ⟨dr, cats, hdr, hcats, hrowEq⟩ := zipWith_getElem?_some hrow
  subst hrowEq
  rw [List.getElem?_map, hvals] at hcats
  simp only [Option.map_some', Option.some.injEq] at hcats
  subst hcats
  unfold dropColumn at hdr
  simp only [List.getElem?_map] at hdr
  cases horig : df.rows[i]? <;> rw [horig] at hdr
  · exact absurd hdr (Option.noConfusion ·)
  · rename_i orig
    simp only [Option.map_some', Option.some.injEq] at hdr
    subst hdr
    have hlen :
        (((df.cols.zip orig).filter fun p => p.1 ≠ "categories").map
          Prod.snd).length = (df.cols.filter (· ≠ "categories")).length :=
      zip_filter_proj_length "categories" df.cols orig
        (hwf orig (List.getElem?_mem horig))
    rw [List.getElem?_append_right (by rw [hlen]; exact Nat.le_add_right _ _),
      hlen, Nat.add_sub_cancel_left, List.getElem?_map, List.getElem?_map, hv]
    rfl

theorem clean_data_normalizes_two_to_one_witness :
    cleanDataNoDedup dfEx = some cleanedEx
    ∧ parsedValues dfEx = some parsedEx
    ∧ ([Cell.int 1, Cell.str "water", Cell.int 1, Cell.int 0, Cell.int 1] :
        List Cell)[(dfEx.cols.filter (· ≠ "categories")).length + 2]? =
          some (Cell.int (if (2 : Int) = 2 then 1 else 2))
    ∧ cleanData dfEx = some cleanedEx := by
  obtain ⟨h1, h2⟩ :=
    clean_data_normalizes_two_to_one dfEx cleanedEx parsedEx (by decide) rfl rfl
      0 2 [Cell.int 1, Cell.str "water", Cell.int 1, Cell.int 0, Cell.int 1]
      [1, 0, 2] 2 rfl rfl rfl
  exact ⟨rfl, rfl, h1, h2⟩

theorem afterLastDash_eq_getLast {s : String} {c : Char}
    (h : (afterLastDash s).toList = [c]) :
    s.toList.getLast? = some c := by
  have h' : (s.toList.reverse.takeWhile (· ≠ '-')).reverse = [c] := h
  have h'' : s.toList.reverse.takeWhile (· ≠ '-') = [c] := by
    have := congrArg List.reverse h'
    simpa using this
  rw [List.getLast?_eq_head?_reverse]
  cases hrev : s.toList.reverse with
  | nil =>
    rw [hrev] at h''
    simp at h''
  | cons y ys =>
    rw [hrev, List.takeWhile_cons] at h''
    by_cases hy : y ≠ '-'
    · rw [if_pos (by simpa using hy)] at h''
      simp only [List.cons.injEq] at h''
      rw [h''.1]
      rfl
    · rw [if_neg (by simpa using hy)] at h''
      simp at h''

/-- C2: for every row and every category column, the pre-normalization
value is the integer parse of the character after the last `-` of the
corresponding `;`-separated token, which is the last character of the
token (stated for tokens whose suffix after the last `-` is one character,
as the claim asserts). -/
theorem clean_data_parses_char_after_last_dash
    (df : DataFrame) (exp : List (List (Option String)))
    (parsed : List (List Int))
    (hexp : expandedTokens df = some exp)
    (hparsed : parsedValues df = some parsed)
    (i j : Nat) (toks : List (Option String)) (vals : List Int)
    (tok : String) (v : Int)
    (htoks : exp[i]? = some toks) (hvals : parsed[i]? = some vals)
    (htok : toks[j]? = some (some tok)) (hv : vals[j]? = some v)
    (hone : (afterLastDash tok).length = 1) :
    ∃ c, (afterLastDash tok).toList = [c]
      ∧ tok.toList.getLast? = some c
      ∧ charDigit? c = some v := by
  obtain ⟨exp', hexp', hmap⟩ := parsedValues_some hparsed
  rw [hexp] at hexp'
  injection hexp' with hexp'
  subst hexp'
  obtain ⟨rvals, hrvals, hrvals'⟩ := mapOpt_getElem? hmap i toks htoks
  rw [hvals] at hrvals'
  injection hrvals' with hrvals'
  subst hrvals'
  obtain ⟨b, hb, hb'⟩ := mapOpt_getElem? hrvals j (some tok) htok
  rw [hv] at hb'
  injection hb' with hb'
  subst hb'
  unfold parseCatCell at hb
  rw [Option.bind_eq_some] at hb
  obtain ⟨ch, hch, hdig⟩ := hb
  obtain ⟨c, hc⟩ :=
    List.length_eq_one.mp (show (afterLastDash tok).toList.length = 1 from hone)
  have hlast := afterLastDash_eq_getLast hc
  rw [hch] at hlast
  injection hlast with hlast
  subst hlast
  exact ⟨ch, hc, hch, hdig⟩

theorem clean_data_parses_char_after_last_dash_witness :
    expandedTokens dfEx = some expEx
    ∧ parsedValues dfEx = some parsedEx
    ∧ (afterLastDash "offer-2").length = 1
    ∧ ∃ c, (afterLastDash "offer-2").toList = [c]
        ∧ "offer-2".toList.getLast? = some c
        ∧ charDigit? c = some 2 :=
  ⟨rfl, rfl, by decide,
   clean_data_parses_char_after_last_dash dfEx expEx parsedEx rfl rfl 0 2
     [some "related-1", some "request-0", some "offer-2"] [1, 0, 2]
     "offer-2" 2 rfl rfl rfl rfl (by decide)⟩

/-- C3: for every input table with a `categories` column whose cleaning
succeeds, the cleaned column headers are exactly, in order, the remaining
original columns followed by the prefixes obtained by splitting each
`;`-separated token of row 0's categories value on `-`; the packed
`categories` column itself is gone. -/
theorem clean_data_headers_from_row_zero
    (df out : DataFrame) (ci : Nat) (row0 : List Cell) (s0 : String)
    (hci : df.cols.findIdx? (· = "categories") = some ci)
    (hrow0 : df.rows.head? = some row0)
    (hcell : row0.getD ci (Cell.int 0) = Cell.str s0)
    (hout : cleanData df = some out) :
    out.cols = df.cols.filter (· ≠ "categories")
      ++ (pySplit ';' s0).map fun t => (pySplit '-' t).headI := by
  obtain ⟨pre, hpre, hout'⟩ := cleanData_some hout
  obtain ⟨names, norm, hnames, hnorm, hpre'⟩ := cleanDataNoDedup_some hpre
  subst hout'
  subst hpre'
  obtain ⟨exp, row0t, row0s, hexp, hhead, hmap, hnameseq⟩ :=
    categoryNames_some hnames
  obtain ⟨strs, hstrs, hexpeq⟩ := expandedTokens_some hexp
  subst hexpeq
  obtain ⟨ci', hci', hmapstrs⟩ := catStrings_some hstrs
  rw [hci] at hci'
  injection hci' with hci'
  subst hci'
  have hrow0' : df.rows[0]? = some row0 := by
    rw [← List.head?_eq_getElem?]
    exact hrow0
  obtain ⟨b, hbval, hb'⟩ := mapOpt_getElem? hmapstrs 0 row0 hrow0'
  rw [hcell] at hbval
  simp only [cellStr?, Option.some.injEq] at hbval
  subst hbval
  obtain ⟨s0', k, hs0', hrow0t⟩ := splitExpand_head? hhead
  rw [← List.head?_eq_getElem?] at hb'
  rw [hb'] at hs0'
  injection hs0' with hs0'
  subst hs0'
  subst hrow0t
  obtain ⟨hk, hrow0s⟩ := mapOpt_id_pad hmap
  subst hrow0s
  rw [hnameseq]
  rfl

theorem clean_data_headers_from_row_zero_witness :
    dfEx.cols.findIdx? (· = "categories") = some 2
    ∧ dfEx.rows.head? =
        some [Cell.int 1, Cell.str "water",
              Cell.str "related-1;request-0;offer-2"]
    ∧ cleanData dfEx = some cleanedEx
    ∧ cleanedEx.cols = dfEx.cols.filter (· ≠ "categories")
        ++ (pySplit ';' "related-1;request-0;offer-2").map
             fun t => (pySplit '-' t).headI :=
  ⟨rfl, rfl, rfl,
   clean_data_headers_from_row_zero dfEx cleanedEx 2
     [Cell.int 1, Cell.str "water", Cell.str "related-1;request-0;offer-2"]
     "related-1;request-0;offer-2" rfl rfl rfl rfl⟩

/-- C6: before deduplication, the cleaner leaves every column other than the
packed `categories` column unchanged (same values, same relative order,
each such column readable under its name as before), preserves the row
count and row order, and only replaces `categories` with the per-category
columns appended on the right. -/
theorem clean_data_preserves_other_columns
    (df pre : DataFrame) (names : List String)
    (hwf : ∀ r ∈ df.rows, r.length = df.cols.length)
    (hpre : cleanDataNoDedup df = some pre)
    (hnames : categoryNames df = some names) :
    pre.cols = df.cols.filter (· ≠ "categories") ++ names
    ∧ pre.rows.length = df.rows.length
    ∧ ∀ cname, cname ≠ "categories" → cname ∈ df.cols →
        getCol? pre cname = getCol? df cname := by
  obtain ⟨names', norm, hnames', hnorm, hpre'⟩ := cleanDataNoDedup_some hpre
  rw [hnames] at hnames'
  injection hnames' with hnames'
  subst hnames'
  have hcols : pre.cols = df.cols.filter (· ≠ "categories") ++ names := by
    rw [hpre']
    rfl
  have hrows : pre.rows =
      List.zipWith (fun r cats => r ++ cats.map Cell.int)
        (dropColumn df "categories").rows norm := by
    rw [hpre']
  obtain ⟨parsed, hparsed, hnormeq⟩ := normalizedValues_some hnorm
  obtain ⟨exp, hexp, hmapparsed⟩ := parsedValues_some hparsed
  obtain ⟨strs, hstrs, hexpeq⟩ := expandedTokens_some hexp
  obtain ⟨ci, hci, hmapstrs⟩ := catStrings_some hstrs
  have hstrslen : strs.length = df.rows.length := mapOpt_length hmapstrs
  have hexplen : exp.length = df.rows.length := by
    rw [hexpeq]
    unfold splitExpand
    simp [hstrslen]
  have hparsedlen : parsed.length = df.rows.length := by
    rw [mapOpt_length hmapparsed, hexplen]
  have hnormlen : norm.length = df.rows.length := by
    rw [hnormeq, List.length_map, hparsedlen]
  have hdroplen : (dropColumn df "categories").rows.length = df.rows.length :=
    List.length_map _ _
  have hprelen : pre.rows.length = df.rows.length := by
    rw [hrows, List.length_zipWith, hdroplen, hnormlen]
    exact Nat.min_self _
  refine ⟨hcols, hprelen, ?_⟩
  intro cname hne hmem
  obtain ⟨i, hi⟩ : ∃ i, df.cols.findIdx? (· = cname) = some i := by
    rw [← Option.isSome_iff_exists, List.findIdx?_isSome, List.any_eq_true]
    exact ⟨_, hmem, by simp⟩
  obtain ⟨j, hj⟩ :
      ∃ j, (df.cols.filter (· ≠ "categories")).findIdx? (· = cname) = some j := by
    rw [← Option.isSome_iff_exists, List.findIdx?_isSome, List.any_eq_true]
    exact ⟨cname, List.mem_filter.mpr ⟨hmem, by simp [hne]⟩, by simp⟩
  have hjlt : j < (df.cols.filter (· ≠ "categories")).length :=
    (List.findIdx?_eq_some_iff_findIdx_eq.mp hj).1
  have hjpre : pre.cols.findIdx? (· = cname) = some j := by
    rw [hcols, List.findIdx?_append, hj, Option.or_some]
  unfold getCol?
  rw [hi, hjpre]
  simp only [Option.map_some', Option.some.injEq]
  refine List.ext_getElem? fun n => ?_
  rw [List.getElem?_map, List.getElem?_map, hrows]
  by_cases hn : n < df.rows.length
  · have horig : df.rows[n]? = some (df.rows[n]) :=
      List.getElem?_eq_getElem hn
    have hncat : n < norm.length := by rw [hnormlen]; exact hn
    have hcats : norm[n]? = some (norm[n]) := List.getElem?_eq_getElem hncat
    rw [List.getElem?_zipWith]
    unfold dropColumn
    rw [List.getElem?_map, horig, hcats]
    simp only [Option.map_some']
    have horiglen : (df.rows[n]).length = df.cols.length :=
      hwf _ (List.getElem?_mem horig)
    have hprojlen := zip_filter_proj_length "categories" df.cols (df.rows[n])
      horiglen
    rw [List.getD_append _ _ _ j (by rw [hprojlen]; exact hjlt)]
    exact congrArg some (zip_filter_proj_getD "categories" cname hne df.cols
      (df.rows[n]) i j horiglen hi hj)
  · have h1 : df.rows[n]? = none := List.getElem?_eq_none (Nat.le_of_not_lt hn)
    have h2 : (List.zipWith (fun r cats => r ++ cats.map Cell.int)
        (dropColumn df "categories").rows norm)[n]? = none := by
      refine List.getElem?_eq_none ?_
      rw [List.length_zipWith, hdroplen, hnormlen, Nat.min_self]
      exact Nat.le_of_not_lt hn
    rw [h1, h2]
    rfl

theorem clean_data_preserves_other_columns_witness :
    cleanDataNoDedup dfEx = some cleanedEx
    ∧ categoryNames dfEx = some ["related", "request", "offer"]
    ∧ cleanedEx.cols = dfEx.cols.filter (· ≠ "categories")
        ++ ["related", "request", "offer"]
    ∧ cleanedEx.rows.length = dfEx.rows.length
    ∧ getCol? cleanedEx "message" = getCol? dfEx "message" := by
  obtain ⟨h1, h2, h3⟩ :=
    clean_data_preserves_other_columns dfEx cleanedEx
      ["related", "request", "offer"] (by decide) rfl rfl
  exact ⟨rfl, rfl, h1, h2, h3 "message" (by decide) (by decide)⟩

/-- C4: `load_data` performs an inner join on `id`: the output retains all
columns from both sides without duplicating the identifier column, every
output row's identifier occurs in both inputs, and when each input's ids
are unique the row count equals the number of ids present in both inputs. -/
theorem load_data_inner_join_on_id
    (m c out : DataFrame) (mi ci : Nat) (mids cids : List Cell)
    (hmi : m.cols.findIdx? (· = "id") = some mi)
    (hci : c.cols.findIdx? (· = "id") = some ci)
    (hcount : c.cols.count "id" = 1)
    (hdisj : ∀ s ∈ c.cols, s ≠ "id" → s ∉ m.cols)
    (hwm : ∀ r ∈ m.rows, r.length = m.cols.length)
    (hout : loadData m c = some out)
    (hmids : getCol? m "id" = some mids)
    (hcids : getCol? c "id" = some cids) :
    out.cols = m.cols ++ c.cols.filter (· ≠ "id")
    ∧ (∀ row ∈ out.rows,
        row.getD mi (Cell.int 0) ∈ mids ∧ row.getD mi (Cell.int 0) ∈ cids)
    ∧ (mids.Nodup → cids.Nodup →
        out.rows.length = (mids.toFinset ∩ cids.toFinset).card) := by
  unfold loadData at hout
  rw [hmi, hci] at hout
  injection hout with hout
  subst hout
  unfold getCol? at hmids hcids
  rw [hmi] at hmids
  rw [hci] at hcids
  simp only [Option.map_some', Option.some.injEq] at hmids hcids
  subst hmids
  subst hcids
  have hmilt : mi < m.cols.length :=
    (List.findIdx?_eq_some_iff_findIdx_eq.mp hmi).1
  refine ⟨?_, ?_, ?_⟩
  · show m.cols ++ c.cols.eraseIdx ci = _
    rw [eraseIdx_findIdx_eq_filter "id" c.cols ci hci hcount]
  · intro row hrow
    have hrow' : row ∈ m.rows.flatMap (fun mr =>
        (c.rows.filter fun cr =>
          cr.getD ci (Cell.int 0) = mr.getD mi (Cell.int 0)).map
          fun cr => mr ++ cr.eraseIdx ci) := hrow
    rw [List.mem_flatMap] at hrow'
    obtain ⟨mr, hmr, hrowmem⟩ := hrow'
    rw [List.mem_map] at hrowmem
    obtain ⟨cr, hcrfil, hroweq⟩ := hrowmem
    rw [List.mem_filter] at hcrfil
    obtain ⟨hcr, hkey⟩ := hcrfil
    simp only [decide_eq_true_eq] at hkey
    subst hroweq
    have hmrlen : mi < mr.length := by
      rw [hwm mr hmr]
      exact hmilt
    rw [List.getD_append _ _ _ mi hmrlen]
    constructor
    · exact List.mem_map_of_mem _ hmr
    · rw [← hkey]
      exact List.mem_map_of_mem _ hcr
  · intro hndm hndc
    show (m.rows.flatMap fun mr =>
        (c.rows.filter fun cr =>
          cr.getD ci (Cell.int 0) = mr.getD mi (Cell.int 0)).map
          fun cr => mr ++ cr.eraseIdx ci).length = _
    refine Eq.trans (length_flatMap_filter (fun mr => mr.getD mi (Cell.int 0))
      (fun cr => cr.getD ci (Cell.int 0)) (fun mr cr => mr ++ cr.eraseIdx ci)
      m.rows c.rows hndc) ?_
    have hndf := hndm.filter
      (fun v => decide (v ∈ c.rows.map fun cr => cr.getD ci (Cell.int 0)))
    rw [← List.toFinset_card_of_nodup hndf]
    congr 1
    ext v
    simp [List.mem_filter]

theorem load_data_inner_join_on_id_witness :
    loadData msgsEx catsEx = some joinedEx
    ∧ joinedEx.cols = msgsEx.cols ++ catsEx.cols.filter (· ≠ "id")
    ∧ joinedEx.rows.length =
        (([Cell.int 1, Cell.int 2] : List Cell).toFinset ∩
          ([Cell.int 1] : List Cell).toFinset).card := by
  obtain ⟨h1, h2, h3⟩ :=
    load_data_inner_join_on_id msgsEx catsEx joinedEx 0 0
      [Cell.int 1, Cell.int 2] [Cell.int 1] rfl rfl (by decide) (by decide)
      (by decide) rfl rfl rfl
  exact ⟨rfl, h1, h3 (by decide) (by decide)⟩

end DisasterResponse
